import Mathlib

/-!
Verification of the Netflix thumbnail downloader (src/netflix_downloader_js.js).

This file shallowly embeds the computational core of the program:

* `extractNetflixId` — the identifier resolver (lines 77-93), with the four
  ordered regular-expression patterns modelled as executable matchers over
  `List Char` with JavaScript leftmost/greedy semantics (`.` not matching
  any of the four JS line terminators).
* `getNetflixThumbnailIds` — the descriptor-id portion of the candidate
  generator `getNetflixThumbnails` / `extractFromNetflixPage`
  (lines 132-274).
* `removeBlackBars` — the border-trim processor (lines 461-563), operating on
  an RGBA image whose pixels are exposed through a function
  `data : Nat → Nat → Pixel`; the JS flat-array access
  `data[(y*width+x)*4 + c]` becomes channel projections of `data x y`.
  JavaScript arithmetic on the crop rectangle can go negative, so the
  rectangle extents are additionally computed in `Int`
  (`croppedWidthZ`, `croppedHeightZ`); the `ImageData` returned by the
  Lean `removeBlackBars` uses truncated `Nat` subtraction, which agrees
  with the JS result whenever the extents are nonnegative.
* `downloadMultipleAsZip`, `downloadSelected`, `downloadAllAsZip` — the
  archive builder (lines 590-687), with network fetch/decode abstracted as
  an oracle `fetch : Thumbnail → Option α` (`none` = per-item failure).
* `testAndFilterImages` — the probe engine's result collection
  (lines 291-334): `Promise.all` stores every probe outcome at the index of
  its originating candidate; a concurrent completion order is modelled as a
  permutation `schedule` of the candidate indices.
-/

/-! ## Image data model -/

/-- One RGBA pixel; channels are 0–255 values read from the canvas buffer. -/
structure Pixel where
  r : Nat
  g : Nat
  b : Nat
  a : Nat

/-- A decoded image: the canvas `ImageData` of `processImage`.  `data x y` is
the pixel at column `x`, row `y` (the JS code reads the flat RGBA array at
`(y * width + x) * 4`). -/
structure ImageData where
  width : Nat
  height : Nat
  data : Nat → Nat → Pixel

/-- The per-pixel blackness test of `removeBlackBars`: the JS loop breaks
(pixel is not black) when `r > threshold || g > threshold || b > threshold`,
so a pixel counts as black iff all three color channels are `≤ threshold`. -/
def pixelDark (t : Nat) (p : Pixel) : Bool :=
  p.r ≤ t && p.g ≤ t && p.b ≤ t

/-- The inner `x` loop of the row scans: a row is black iff every pixel in it
is dark (the JS loop breaks early at the first bright pixel; the value is the
same). -/
def isBlackRow (img : ImageData) (t y : Nat) : Bool :=
  (List.range img.width).all fun x => pixelDark t (img.data x y)

/-- The inner `y` loop of the column scans, restricted to the row band
`[yLo, yHi)` exactly as the JS code runs `for (let y = topCrop; y < bottomCrop; ...)`.
When `yLo ≥ yHi` the loop body never runs and the column counts as black. -/
def isBlackCol (img : ImageData) (t x yLo yHi : Nat) : Bool :=
  (List.range' yLo (yHi - yLo)).all fun y => pixelDark t (img.data x y)

/-- `scanCount p i f` runs the JS counting loops: starting at index `i` with
`f` indices remaining, count how many consecutive indices satisfy `p`,
stopping at the first failure. -/
def scanCount (p : Nat → Bool) : Nat → Nat → Nat
  | _, 0 => 0
  | i, f + 1 => if p i then scanCount p (i + 1) f + 1 else 0

/-- Lines 466-482: number of consecutive black rows from the top. -/
def topCrop (img : ImageData) (t : Nat) : Nat :=
  scanCount (fun y => isBlackRow img t y) 0 img.height

/-- The count taken by the bottom scan (lines 484-501): rows
`height-1, height-2, ...` while black. -/
def botBlank (img : ImageData) (t : Nat) : Nat :=
  scanCount (fun j => isBlackRow img t (img.height - 1 - j)) 0 img.height

/-- Lines 484-501: `bottomCrop` starts at `height` and is decremented once per
consecutive black row from the bottom. -/
def bottomCrop (img : ImageData) (t : Nat) : Nat :=
  img.height - botBlank img t

/-- Lines 503-520: number of consecutive black columns from the left, testing
only the row band `[topCrop, bottomCrop)`. -/
def leftCrop (img : ImageData) (t : Nat) : Nat :=
  scanCount (fun x => isBlackCol img t x (topCrop img t) (bottomCrop img t)) 0 img.width

/-- The count taken by the right scan (lines 522-539): columns
`width-1, width-2, ...` while black in the band. -/
def rightBlank (img : ImageData) (t : Nat) : Nat :=
  scanCount (fun j => isBlackCol img t (img.width - 1 - j) (topCrop img t) (bottomCrop img t)) 0 img.width

/-- Lines 522-539: `rightCrop` starts at `width` and is decremented once per
consecutive black column from the right. -/
def rightCrop (img : ImageData) (t : Nat) : Nat :=
  img.width - rightBlank img t

/-- Line 542: `croppedWidth = rightCrop - leftCrop`, in JavaScript number
arithmetic, which can be negative. -/
def croppedWidthZ (img : ImageData) (t : Nat) : Int :=
  (rightCrop img t : Int) - (leftCrop img t : Int)

/-- Line 543: `croppedHeight = bottomCrop - topCrop`, in JavaScript number
arithmetic, which can be negative. -/
def croppedHeightZ (img : ImageData) (t : Nat) : Int :=
  (bottomCrop img t : Int) - (topCrop img t : Int)

/-- Lines 541-562: the cropped image.  The copy loop moves pixel
`(x + leftCrop, y + topCrop)` of the source to `(x, y)` of the output,
channel for channel, with no resampling.  The JS `new ImageData` call receives
the possibly-negative extents; here the extents use truncated `Nat`
subtraction (see `croppedWidthZ`/`croppedHeightZ` for the JS values). -/
def removeBlackBars (img : ImageData) (t : Nat) : ImageData :=
  { width := rightCrop img t - leftCrop img t
    height := bottomCrop img t - topCrop img t
    data := fun x y => img.data (x + leftCrop img t) (y + topCrop img t) }

/-- The spec's notion of a blank row: every pixel in the row has all three
color channels at or below the threshold. -/
def RowBlank (img : ImageData) (t y : Nat) : Prop :=
  ∀ x, x < img.width →
    (img.data x y).r ≤ t ∧ (img.data x y).g ≤ t ∧ (img.data x y).b ≤ t

/-- The spec's notion of a blank column within a row band `[yLo, yHi)`. -/
def ColBlank (img : ImageData) (t x yLo yHi : Nat) : Prop :=
  ∀ y, yLo ≤ y → y < yHi →
    (img.data x y).r ≤ t ∧ (img.data x y).g ≤ t ∧ (img.data x y).b ≤ t

/-! ## Concrete test images -/

/-- A pure black, fully opaque pixel. -/
def blackPix : Pixel := ⟨0, 0, 0, 255⟩

/-- A pure white, fully opaque pixel. -/
def whitePix : Pixel := ⟨255, 255, 255, 255⟩

/-- The all-black 100×50 test image of the spec's scenario section. -/
def allBlackImg : ImageData := ⟨100, 50, fun _ _ => blackPix⟩

/-- A 100×50 image whose top ten rows are black and whose remaining pixels are
white: a solid letterbox band on top and no other blank border rows or
columns. -/
def topBandImg : ImageData :=
  ⟨100, 50, fun _ y => if y < 10 then blackPix else whitePix⟩

/-- A 1×1 image holding a single black pixel. -/
def oneBlackImg : ImageData := ⟨1, 1, fun _ _ => blackPix⟩

/-- A 3×2 all-white image: no blank border rows or columns at all. -/
def noBorderImg : ImageData := ⟨3, 2, fun _ _ => whitePix⟩

/-! ## Candidate generator: descriptor ids -/

/-- JavaScript `String.prototype.split('.')` on the character list of a
string: splits at every dot, keeping empty segments. -/
def splitOnDot : List Char → List (List Char)
  | [] => [[]]
  | c :: rest =>
    if c = '.' then [] :: splitOnDot rest
    else
      match splitOnDot rest with
      | [] => [[c]]
      | w :: ws => (c :: w) :: ws

/-- Line 169: `host.split('.')[1]` — the segment of the host name between the
first and second dot (the empty string if there is no second segment). -/
def hostTag (host : String) : String :=
  String.mk ((splitOnDot host.data).getD 1 [])

/-- Lines 134-140: the five CDN hosts. -/
def cdnHosts : List String :=
  ["occ-0-1168-299.1.nflxso.net", "occ-0-3662-3647.1.nflxso.net",
   "occ-0-2706-2705.1.nflxso.net", "occ-0-2153-3934.1.nflxso.net",
   "occ-0-4857-395.1.nflxso.net"]

/-- Lines 142-148: the `name` fields of the five resolutions. -/
def resolutionNames : List String :=
  ["Full HD", "HD", "SD", "Small", "Thumbnail"]

/-- Lines 159-165: five URL patterns per host/resolution pair. -/
def cdnPatternCount : Nat := 5

/-- Lines 185-196: the alternative sources with their size tags. -/
def altSources : List (String × List String) :=
  [("TMDB", ["w500", "w780", "w1280", "original"]), ("OMDB", ["300", "500"])]

/-- Lines 229-274 (`extractFromNetflixPage`): ids
`netflixId_extracted_hostIndex_pathIndex_prefixIndex` over 2 hosts × 4 path
variants × 4 common prefixes. -/
def extractFromNetflixPageIds (netflixId : String) : List String :=
  (List.range 2).flatMap fun hostIndex =>
    (List.range 4).flatMap fun pathIndex =>
      (List.range 4).map fun prefIndex =>
        netflixId ++ "_extracted_" ++ toString hostIndex ++ "_" ++ toString pathIndex
          ++ "_" ++ toString prefIndex

/-- Lines 132-227 (`getNetflixThumbnails`): the `id` field of every generated
candidate descriptor, in generation order.  CDN candidates (method 1) use
`netflixId_host.split('.')[1]_resolutionName_patternIndex`; alternative-source
candidates (method 2) use `netflixId_sourceName_size_sizeIndex`; extracted
candidates (method 3) are appended last. -/
def getNetflixThumbnailIds (netflixId : String) : List String :=
  (cdnHosts.flatMap fun host =>
    resolutionNames.flatMap fun resName =>
      (List.range cdnPatternCount).map fun index =>
        netflixId ++ "_" ++ hostTag host ++ "_" ++ resName ++ "_" ++ toString index)
  ++ (altSources.flatMap fun src =>
      src.2.enum.map fun sz =>
        netflixId ++ "_" ++ src.1 ++ "_" ++ sz.2 ++ "_" ++ toString sz.1)
  ++ extractFromNetflixPageIds netflixId

/-! ## Identifier resolver -/

/-- JavaScript `\d`: the ASCII digits. -/
def isDigitChar (c : Char) : Bool := '0' ≤ c && c ≤ '9'

/-- The four characters JavaScript `.` (without the `s` flag) refuses to
match: LF, CR, LINE SEPARATOR (U+2028) and PARAGRAPH SEPARATOR (U+2029). -/
def isLineTerminator (c : Char) : Bool :=
  c = '\n' || c = '\r' || c = '\u2028' || c = '\u2029'

/-- The greedy capture `(\d+)` starting at the current position: the maximal
run of digits. -/
def digitRun (s : List Char) : List Char := s.takeWhile isDigitChar

/-- Literal-prefix test: the pattern's literal part matches at the current
position. -/
def litMatch : List Char → List Char → Bool
  | [], _ => true
  | _ :: _, [] => false
  | a :: as, b :: bs => a == b && litMatch as bs

/-- The literal part of `/netflix\.com\/title\/(\d+)/`. -/
def titleLit : List Char := "netflix.com/title/".data

/-- The literal part of `/netflix\.com\/watch\/(\d+)/`. -/
def watchLit : List Char := "netflix.com/watch/".data

/-- The literal part of `/netflix\.com\/.*\/(\d+)/` before `.*`. -/
def netflixComLit : List Char := "netflix.com/".data

/-- One attempt of `lit(\d+)` anchored at the current position: the literal
followed by at least one digit; the capture is the maximal digit run. -/
def litDigitsHere (lit s : List Char) : Option (List Char) :=
  if litMatch lit s then
    match s.drop lit.length with
    | d :: ds => if isDigitChar d then some (digitRun (d :: ds)) else none
    | [] => none
  else none

/-- Unanchored leftmost match of `lit(\d+)`, as the JS regex engine performs
it: try every start position left to right, first full match wins. -/
def matchLitDigits (lit : List Char) : List Char → Option (List Char)
  | [] => none
  | c :: rest =>
    match litDigitsHere lit (c :: rest) with
    | some ds => some ds
    | none => matchLitDigits lit rest

/-- The `.*\/(\d+)` tail of pattern 3 with JS greedy semantics: `.` matches
no line terminator, and `.*` backtracks to the rightmost `/` that is followed
by a digit, so the capture is the digit run after the last such slash before
the first line terminator.  `acc` holds the best capture found so far. -/
def lastSlashRunGo : List Char → Option (List Char) → Option (List Char)
  | [], acc => acc
  | c :: rest, acc =>
    if isLineTerminator c then acc
    else if c = '/' then
      lastSlashRunGo rest
        (match rest with
          | d :: _ => if isDigitChar d then some (digitRun rest) else acc
          | [] => acc)
    else lastSlashRunGo rest acc

/-- See `lastSlashRunGo`. -/
def lastSlashRun (s : List Char) : Option (List Char) := lastSlashRunGo s none

/-- One attempt of `/netflix\.com\/.*\/(\d+)/` anchored at the current
position. -/
def dotStarHere (s : List Char) : Option (List Char) :=
  if litMatch netflixComLit s then lastSlashRun (s.drop netflixComLit.length)
  else none

/-- Unanchored leftmost match of `/netflix\.com\/.*\/(\d+)/`. -/
def matchDotStarSlashDigits : List Char → Option (List Char)
  | [] => none
  | c :: rest =>
    match dotStarHere (c :: rest) with
    | some ds => some ds
    | none => matchDotStarSlashDigits rest

/-- Lines 77-93 (`extractNetflixId`): try the four patterns in order —
`netflix.com/title/(\d+)`, `netflix.com/watch/(\d+)`,
`netflix.com/.*/(\d+)`, `^(\d+)$` — returning the first capture group of the
first pattern that matches, and `null` (here `none`) when none does. -/
def extractNetflixId (url : String) : Option String :=
  match matchLitDigits titleLit url.data with
  | some ds => some (String.mk ds)
  | none =>
    match matchLitDigits watchLit url.data with
    | some ds => some (String.mk ds)
    | none =>
      match matchDotStarSlashDigits url.data with
      | some ds => some (String.mk ds)
      | none =>
        if !url.data.isEmpty && url.data.all isDigitChar then some url else none

/-- Spec-side reading of patterns 1 and 2: somewhere in the string the literal
occurs immediately followed by a digit. -/
def LitThenDigits (lit s : List Char) : Prop :=
  ∃ pre d post, s = pre ++ lit ++ d :: post ∧ isDigitChar d = true

/-- Spec-side reading of the `.*\/(\d+)` tail: a slash followed by a digit,
with no line terminator (LF, CR, U+2028, U+2029) in between the current
position and that slash. -/
def SlashDigitsSeg (r : List Char) : Prop :=
  ∃ mid d post, r = mid ++ '/' :: d :: post
    ∧ (∀ c ∈ mid, isLineTerminator c = false) ∧ isDigitChar d = true

/-- Spec-side reading of pattern 3: the literal `netflix.com/` occurs,
followed — with no line terminator in between — by a later slash and a
digit. -/
def DotStarSlashDigits (s : List Char) : Prop :=
  ∃ pre rest, s = pre ++ netflixComLit ++ rest ∧ SlashDigitsSeg rest

/-- Spec-side reading of pattern 4: a nonempty all-digit string. -/
def BareDigits (s : List Char) : Prop :=
  s ≠ [] ∧ ∀ c ∈ s, isDigitChar c = true

/-! ## Archive builder -/

/-- The descriptor fields the archive builder reads (the presentation fields
`title`, `resolution`, `width`, `height` of the JS objects are dropped). -/
structure Thumbnail where
  id : String
  url : String
  netflixId : String
  type : String
  source : String

/-- Line 659: the archive member filename
`netflix_<netflixId>_<source>_<type>_<loopIndex>.jpg`. -/
def zipFilename (t : Thumbnail) (i : Nat) : String :=
  "netflix_" ++ t.netflixId ++ "_" ++ t.source ++ "_" ++ t.type ++ "_"
    ++ toString i ++ ".jpg"

/-- The observable outcome of `downloadMultipleAsZip`: the zip entries in
insertion order, the `successful` counter, and `total = thumbnailIds.length`
(both counters are local variables of the JS function). -/
structure ZipResult (α : Type) where
  entries : List (String × α)
  successful : Nat
  total : Nat

/-- Line 634: `this.thumbnails.find(t => t.id === thumbnailId)`. -/
def findThumbnail (thumbs : List Thumbnail) (tid : String) : Option Thumbnail :=
  thumbs.find? fun t => t.id == tid

/-- An input id contributes an archive entry iff it resolves to a known
thumbnail and the fetch/process oracle succeeds on it. -/
def itemOk {α : Type} (thumbs : List Thumbnail) (fetch : Thumbnail → Option α)
    (tid : String) : Bool :=
  match findThumbnail thumbs tid with
  | none => false
  | some t => (fetch t).isSome

/-- Lines 632-667: the `for` loop of `downloadMultipleAsZip`.  Per id: look
the thumbnail up; on success obtain its bytes through the oracle (the JS
`try` block: image test, optional black-bar processing, fetch); on success
add a zip entry and bump `successful`; on any failure just continue. -/
def zipLoop {α : Type} (thumbs : List Thumbnail) (fetch : Thumbnail → Option α) :
    List String → Nat → List (String × α) → Nat → List (String × α) × Nat
  | [], _, entries, successful => (entries, successful)
  | tid :: rest, i, entries, successful =>
    match findThumbnail thumbs tid with
    | none => zipLoop thumbs fetch rest (i + 1) entries successful
    | some t =>
      match fetch t with
      | none => zipLoop thumbs fetch rest (i + 1) entries successful
      | some b =>
          zipLoop thumbs fetch rest (i + 1)
            (entries ++ [(zipFilename t i, b)]) (successful + 1)

/-- Lines 620-687 (`downloadMultipleAsZip`): run the loop over all ids; if
`successful === 0` throw `'No thumbnails could be processed'` (caught and
shown as the error banner), otherwise generate the zip. -/
def downloadMultipleAsZip {α : Type} (thumbs : List Thumbnail)
    (fetch : Thumbnail → Option α) (thumbnailIds : List String) :
    Except String (ZipResult α) :=
  if (zipLoop thumbs fetch thumbnailIds 0 [] 0).2 = 0 then
    Except.error "No thumbnails could be processed"
  else
    Except.ok ⟨(zipLoop thumbs fetch thumbnailIds 0 [] 0).1,
      (zipLoop thumbs fetch thumbnailIds 0 [] 0).2, thumbnailIds.length⟩

/-- What a download request delivers to the user: an error banner, one raw
image payload (`downloadSingle`), or a zip archive. -/
inductive DownloadOutcome (α : Type) where
  | err : String → DownloadOutcome α
  | raw : α → DownloadOutcome α
  | zip : ZipResult α → DownloadOutcome α

/-- Lines 374-419 (`downloadSingle`): fetch one thumbnail's bytes and hand
them over raw — no archive is ever produced on this path. -/
def downloadSingle {α : Type} (thumbs : List Thumbnail)
    (fetch : Thumbnail → Option α) (tid : String) : DownloadOutcome α :=
  match findThumbnail thumbs tid with
  | none => DownloadOutcome.err "not found"
  | some t =>
    match fetch t with
    | some b => DownloadOutcome.raw b
    | none => DownloadOutcome.err "Failed to download"

/-- Lines 590-606 (`downloadSelected`): zero selected ids is an error, exactly
one bypasses archiving via `downloadSingle`, more go through
`downloadMultipleAsZip`. -/
def downloadSelected {α : Type} (thumbs : List Thumbnail)
    (fetch : Thumbnail → Option α) (selectedIds : List String) : DownloadOutcome α :=
  if selectedIds.length = 0 then
    DownloadOutcome.err "Please select at least one working thumbnail"
  else if selectedIds.length = 1 then
    downloadSingle thumbs fetch (selectedIds.headD "")
  else
    match downloadMultipleAsZip thumbs fetch selectedIds with
    | Except.ok r => DownloadOutcome.zip r
    | Except.error e => DownloadOutcome.err e

/-- Lines 608-618 (`downloadAllAsZip`): zero working ids is an error;
otherwise the whole list — of whatever length, including one — goes through
`downloadMultipleAsZip`. -/
def downloadAllAsZip {α : Type} (thumbs : List Thumbnail)
    (fetch : Thumbnail → Option α) (workingIds : List String) : DownloadOutcome α :=
  if workingIds.length = 0 then
    DownloadOutcome.err "No working thumbnails available"
  else
    match downloadMultipleAsZip thumbs fetch workingIds with
    | Except.ok r => DownloadOutcome.zip r
    | Except.error e => DownloadOutcome.err e

/-! ## Probe engine result collection -/

/-- The outcome of probing the candidate at index `i`: whether its image
loads (`onload` vs `onerror`/timeout). -/
def probeAt (candidates : List Thumbnail) (loads : Thumbnail → Bool) (i : Nat) : Bool :=
  match candidates[i]? with
  | some c => loads c
  | none => false

/-- Lines 291-334 (`testAndFilterImages`): one probe promise is created per
candidate, and `Promise.all` stores each result at the index of the candidate
that produced it.  `schedule` is the order in which the concurrent probes
complete; each completion writes its result into the slot of its own
candidate. -/
def testAndFilterImages (candidates : List Thumbnail) (loads : Thumbnail → Bool)
    (schedule : List Nat) : List (Option Bool) :=
  schedule.foldl (fun acc i => acc.set i (some (probeAt candidates loads i)))
    (candidates.map fun _ => none)

/-! ## Concrete demonstration inputs for the archive builder and probes -/

/-- Two thumbnails for concrete runs: ids `"a"` and `"b"`. -/
def demoThumbs : List Thumbnail :=
  [⟨"a", "u1", "80057281", "main", "netflix_cdn"⟩,
   ⟨"b", "u2", "80057281", "hero", "netflix_cdn"⟩]

/-- A fetch oracle that succeeds (with payload `7`) only on thumbnail
`"a"`. -/
def demoFetch : Thumbnail → Option Nat :=
  fun t => if t.id == "a" then some 7 else none

/-- A probe oracle: only thumbnail `"a"` loads. -/
def demoLoads : Thumbnail → Bool := fun t => t.id == "a"

/-! ## Lemmas about the counting loops -/

theorem scanCount_le (p : Nat → Bool) : ∀ i f, scanCount p i f ≤ f := by
  intro i f
  induction f generalizing i with
  | zero => simp [scanCount]
  | succ f ih =>
    simp only [scanCount]
    by_cases h : p i = true
    · simp only [h, if_true]
      exact Nat.succ_le_succ (ih (i + 1))
    · simp [h]

theorem scanCount_true (p : Nat → Bool) :
    ∀ i f j, j < scanCount p i f → p (i + j) = true := by
  intro i f
  induction f generalizing i with
  | zero => intro j hj; simp [scanCount] at hj
  | succ f ih =>
    intro j hj
    simp only [scanCount] at hj
    by_cases h : p i = true
    · simp only [h, if_true] at hj
      cases j with
      | zero => simpa using h
      | succ j =>
        have := ih (i + 1) j (Nat.lt_of_succ_lt_succ hj)
        have harith : i + 1 + j = i + (j + 1) := by omega
        rwa [harith] at this
    · simp [h] at hj

theorem scanCount_stop (p : Nat → Bool) :
    ∀ i f, scanCount p i f < f → p (i + scanCount p i f) = false := by
  intro i f
  induction f generalizing i with
  | zero => intro h; omega
  | succ f ih =>
    intro h
    simp only [scanCount] at h ⊢
    by_cases hp : p i = true
    · simp only [hp, if_true] at h ⊢
      have := ih (i + 1) (Nat.lt_of_succ_lt_succ h)
      have harith : i + 1 + scanCount p (i + 1) f = i + (scanCount p (i + 1) f + 1) := by omega
      rwa [harith] at this
    · simp only [if_neg hp] at h ⊢
      simpa using Bool.eq_false_iff.mpr hp

theorem scanCount_le_of_false (p : Nat → Bool) :
    ∀ i f k, p (i + k) = false → scanCount p i f ≤ k := by
  intro i f k hk
  by_contra h
  have hlt : k < scanCount p i f := by omega
  have := scanCount_true p i f k hlt
  rw [this] at hk
  exact Bool.noConfusion hk

theorem scanCount_eq_zero (p : Nat → Bool) (i f : Nat) (h : p i = false) :
    scanCount p i f = 0 := by
  cases f with
  | zero => rfl
  | succ f => simp [scanCount, h]

/-! ## Characterizing the blackness tests -/

theorem isBlackRow_iff (img : ImageData) (t y : Nat) :
    isBlackRow img t y = true ↔ RowBlank img t y := by
  simp only [isBlackRow, List.all_eq_true, List.mem_range, RowBlank, pixelDark,
    Bool.and_eq_true, decide_eq_true_eq]
  constructor
  · intro h x hx
    exact ⟨(h x hx).1.1, (h x hx).1.2, (h x hx).2⟩
  · intro h x hx
    exact ⟨⟨(h x hx).1, (h x hx).2.1⟩, (h x hx).2.2⟩

theorem isBlackRow_eq_false (img : ImageData) (t y : Nat) :
    isBlackRow img t y = false ↔ ¬ RowBlank img t y := by
  rw [← isBlackRow_iff]
  cases h : isBlackRow img t y <;> simp [h]

theorem isBlackCol_iff (img : ImageData) (t x yLo yHi : Nat) :
    isBlackCol img t x yLo yHi = true ↔ ColBlank img t x yLo yHi := by
  simp only [isBlackCol, List.all_eq_true, ColBlank, pixelDark,
    Bool.and_eq_true, decide_eq_true_eq]
  constructor
  · intro h y h1 h2
    have hy : y ∈ List.range' yLo (yHi - yLo) := by
      rw [List.mem_range']
      refine ⟨y - yLo, by omega, by omega⟩
    exact ⟨(h y hy).1.1, (h y hy).1.2, (h y hy).2⟩
  · intro h y hy
    rw [List.mem_range'] at hy
    obtain ⟨i, hi, rfl⟩ := hy
    have h1 : yLo ≤ yLo + 1 * i := by omega
    have h2 : yLo + 1 * i < yHi := by omega
    exact ⟨⟨(h _ h1 h2).1, (h _ h1 h2).2.1⟩, (h _ h1 h2).2.2⟩

theorem isBlackCol_eq_false (img : ImageData) (t x yLo yHi : Nat) :
    isBlackCol img t x yLo yHi = false ↔ ¬ ColBlank img t x yLo yHi := by
  rw [← isBlackCol_iff]
  cases h : isBlackCol img t x yLo yHi <;> simp [h]

theorem pixelDark_true_iff (t : Nat) (p : Pixel) :
    pixelDark t p = true ↔ p.r ≤ t ∧ p.g ≤ t ∧ p.b ≤ t := by
  simp [pixelDark, and_assoc]

theorem rowBlank_iff (img : ImageData) (t y : Nat) :
    RowBlank img t y ↔ ∀ x, x < img.width → pixelDark t (img.data x y) = true := by
  unfold RowBlank
  simp only [pixelDark_true_iff]

theorem not_rowBlank_iff (img : ImageData) (t y : Nat) :
    ¬ RowBlank img t y ↔ ∃ x, x < img.width ∧ pixelDark t (img.data x y) = false := by
  rw [rowBlank_iff]
  push_neg
  simp only [Bool.not_eq_true]

theorem colBlank_iff (img : ImageData) (t x yLo yHi : Nat) :
    ColBlank img t x yLo yHi ↔
      ∀ y, yLo ≤ y → y < yHi → pixelDark t (img.data x y) = true := by
  unfold ColBlank
  simp only [pixelDark_true_iff]

theorem not_colBlank_iff (img : ImageData) (t x yLo yHi : Nat) :
    ¬ ColBlank img t x yLo yHi ↔
      ∃ y, yLo ≤ y ∧ y < yHi ∧ pixelDark t (img.data x y) = false := by
  rw [colBlank_iff]
  push_neg
  simp only [Bool.not_eq_true]

/-! ## The four crop counters, characterized -/

theorem topCrop_le (img : ImageData) (t : Nat) : topCrop img t ≤ img.height :=
  scanCount_le _ 0 img.height

theorem row_black_of_lt_topCrop (img : ImageData) (t y : Nat) (h : y < topCrop img t) :
    isBlackRow img t y = true := by
  have := scanCount_true (fun y => isBlackRow img t y) 0 img.height y h
  simpa using this

theorem topCrop_row_false (img : ImageData) (t : Nat) (h : topCrop img t < img.height) :
    isBlackRow img t (topCrop img t) = false := by
  have := scanCount_stop (fun y => isBlackRow img t y) 0 img.height h
  simpa [topCrop] using this

theorem topCrop_le_of_false (img : ImageData) (t y : Nat) (h : isBlackRow img t y = false) :
    topCrop img t ≤ y := by
  refine scanCount_le_of_false _ 0 img.height y ?_
  simpa using h

theorem botBlank_le (img : ImageData) (t : Nat) : botBlank img t ≤ img.height :=
  scanCount_le _ 0 img.height

theorem bottomCrop_le (img : ImageData) (t : Nat) : bottomCrop img t ≤ img.height :=
  Nat.sub_le _ _

theorem row_black_of_ge_bottomCrop (img : ImageData) (t y : Nat)
    (h1 : bottomCrop img t ≤ y) (h2 : y < img.height) : isBlackRow img t y = true := by
  have hb := botBlank_le img t
  have hj : img.height - 1 - y < botBlank img t := by
    unfold bottomCrop at h1; omega
  have := scanCount_true (fun j => isBlackRow img t (img.height - 1 - j)) 0 img.height
    (img.height - 1 - y) hj
  simp only [Nat.zero_add] at this
  have harith : img.height - 1 - (img.height - 1 - y) = y := by omega
  rwa [harith] at this

theorem bottomCrop_row_false (img : ImageData) (t : Nat) (h : 1 ≤ bottomCrop img t) :
    isBlackRow img t (bottomCrop img t - 1) = false := by
  have hb := botBlank_le img t
  have hlt : botBlank img t < img.height := by unfold bottomCrop at h; omega
  have := scanCount_stop (fun j => isBlackRow img t (img.height - 1 - j)) 0 img.height hlt
  simp only [Nat.zero_add] at this
  have harith : img.height - 1 - scanCount (fun j => isBlackRow img t (img.height - 1 - j)) 0 img.height
      = bottomCrop img t - 1 := by
    unfold bottomCrop botBlank
    omega
  rwa [harith] at this

theorem lt_bottomCrop_of_false (img : ImageData) (t y : Nat)
    (h : isBlackRow img t y = false) (hy : y < img.height) : y < bottomCrop img t := by
  have hle : botBlank img t ≤ img.height - 1 - y := by
    refine scanCount_le_of_false _ 0 img.height (img.height - 1 - y) ?_
    simp only [Nat.zero_add]
    have harith : img.height - 1 - (img.height - 1 - y) = y := by omega
    rwa [harith]
  unfold bottomCrop
  omega

theorem leftCrop_le (img : ImageData) (t : Nat) : leftCrop img t ≤ img.width :=
  scanCount_le _ 0 img.width

theorem col_black_of_lt_leftCrop (img : ImageData) (t x : Nat) (h : x < leftCrop img t) :
    isBlackCol img t x (topCrop img t) (bottomCrop img t) = true := by
  have := scanCount_true
    (fun x => isBlackCol img t x (topCrop img t) (bottomCrop img t)) 0 img.width x h
  simpa using this

theorem leftCrop_col_false (img : ImageData) (t : Nat) (h : leftCrop img t < img.width) :
    isBlackCol img t (leftCrop img t) (topCrop img t) (bottomCrop img t) = false := by
  have := scanCount_stop
    (fun x => isBlackCol img t x (topCrop img t) (bottomCrop img t)) 0 img.width h
  simpa [leftCrop] using this

theorem leftCrop_le_of_false (img : ImageData) (t x : Nat)
    (h : isBlackCol img t x (topCrop img t) (bottomCrop img t) = false) :
    leftCrop img t ≤ x := by
  refine scanCount_le_of_false _ 0 img.width x ?_
  simpa using h

theorem rightBlank_le (img : ImageData) (t : Nat) : rightBlank img t ≤ img.width :=
  scanCount_le _ 0 img.width

theorem rightCrop_le (img : ImageData) (t : Nat) : rightCrop img t ≤ img.width :=
  Nat.sub_le _ _

theorem col_black_of_ge_rightCrop (img : ImageData) (t x : Nat)
    (h1 : rightCrop img t ≤ x) (h2 : x < img.width) :
    isBlackCol img t x (topCrop img t) (bottomCrop img t) = true := by
  have hb := rightBlank_le img t
  have hj : img.width - 1 - x < rightBlank img t := by
    unfold rightCrop at h1; omega
  have := scanCount_true
    (fun j => isBlackCol img t (img.width - 1 - j) (topCrop img t) (bottomCrop img t))
    0 img.width (img.width - 1 - x) hj
  simp only [Nat.zero_add] at this
  have harith : img.width - 1 - (img.width - 1 - x) = x := by omega
  rwa [harith] at this

theorem rightCrop_col_false (img : ImageData) (t : Nat) (h : 1 ≤ rightCrop img t) :
    isBlackCol img t (rightCrop img t - 1) (topCrop img t) (bottomCrop img t) = false := by
  have hb := rightBlank_le img t
  have hlt : rightBlank img t < img.width := by unfold rightCrop at h; omega
  have := scanCount_stop
    (fun j => isBlackCol img t (img.width - 1 - j) (topCrop img t) (bottomCrop img t))
    0 img.width hlt
  simp only [Nat.zero_add] at this
  have harith : img.width - 1 -
      scanCount (fun j => isBlackCol img t (img.width - 1 - j) (topCrop img t) (bottomCrop img t)) 0 img.width
      = rightCrop img t - 1 := by
    unfold rightCrop rightBlank
    omega
  rwa [harith] at this

theorem lt_rightCrop_of_false (img : ImageData) (t x : Nat)
    (h : isBlackCol img t x (topCrop img t) (bottomCrop img t) = false)
    (hx : x < img.width) : x < rightCrop img t := by
  have hle : rightBlank img t ≤ img.width - 1 - x := by
    refine scanCount_le_of_false _ 0 img.width (img.width - 1 - x) ?_
    simp only [Nat.zero_add]
    have harith : img.width - 1 - (img.width - 1 - x) = x := by omega
    rwa [harith]
  unfold rightCrop
  omega

/-! ## Crop bounds in the presence of a bright pixel -/

theorem cropBounds (img : ImageData) (t x0 y0 : Nat)
    (hx : x0 < img.width) (hy : y0 < img.height)
    (hb : pixelDark t (img.data x0 y0) = false) :
    topCrop img t < bottomCrop img t ∧ bottomCrop img t ≤ img.height ∧
      leftCrop img t < rightCrop img t ∧ rightCrop img t ≤ img.width := by
  have hrow0 : isBlackRow img t y0 = false := by
    rw [isBlackRow_eq_false, not_rowBlank_iff]
    exact ⟨x0, hx, hb⟩
  have htc : topCrop img t ≤ y0 := topCrop_le_of_false img t y0 hrow0
  have htcH : topCrop img t < img.height := Nat.lt_of_le_of_lt htc hy
  have hrowtc : isBlackRow img t (topCrop img t) = false := topCrop_row_false img t htcH
  have htb : topCrop img t < bottomCrop img t :=
    lt_bottomCrop_of_false img t (topCrop img t) hrowtc htcH
  obtain ⟨x1, hx1, hb1⟩ := (not_rowBlank_iff img t (topCrop img t)).mp
    ((isBlackRow_eq_false img t (topCrop img t)).mp hrowtc)
  have hcol1 : isBlackCol img t x1 (topCrop img t) (bottomCrop img t) = false := by
    rw [isBlackCol_eq_false, not_colBlank_iff]
    exact ⟨topCrop img t, Nat.le_refl _, htb, hb1⟩
  have hlc : leftCrop img t ≤ x1 := leftCrop_le_of_false img t x1 hcol1
  have hrc : x1 < rightCrop img t := lt_rightCrop_of_false img t x1 hcol1 hx1
  exact ⟨htb, bottomCrop_le img t, Nat.lt_of_le_of_lt hlc hrc, rightCrop_le img t⟩

/-! ## Trimming an already-trimmed image -/

theorem removeBlackBars_eq_self (J : ImageData) (t : Nat)
    (h1 : topCrop J t = 0) (h2 : bottomCrop J t = J.height)
    (h3 : leftCrop J t = 0) (h4 : rightCrop J t = J.width) :
    removeBlackBars J t = J := by
  unfold removeBlackBars
  rw [h1, h2, h3, h4]
  simp only [Nat.sub_zero, Nat.add_zero]

theorem trim_crops_of_bright (img : ImageData) (t x0 y0 : Nat)
    (hx : x0 < img.width) (hy : y0 < img.height)
    (hb : pixelDark t (img.data x0 y0) = false) :
    topCrop (removeBlackBars img t) t = 0 ∧
    bottomCrop (removeBlackBars img t) t = (removeBlackBars img t).height ∧
    leftCrop (removeBlackBars img t) t = 0 ∧
    rightCrop (removeBlackBars img t) t = (removeBlackBars img t).width := by
  obtain ⟨htb, hbcH, hlr, hrcW⟩ := cropBounds img t x0 y0 hx hy hb
  have htcH : topCrop img t < img.height := Nat.lt_of_lt_of_le htb hbcH
  have hrowtc : isBlackRow img t (topCrop img t) = false := topCrop_row_false img t htcH
  obtain ⟨x1, hx1W, hbx1⟩ := (not_rowBlank_iff img t (topCrop img t)).mp
    ((isBlackRow_eq_false img t (topCrop img t)).mp hrowtc)
  have hcolx1 : isBlackCol img t x1 (topCrop img t) (bottomCrop img t) = false := by
    rw [isBlackCol_eq_false, not_colBlank_iff]
    exact ⟨topCrop img t, Nat.le_refl _, htb, hbx1⟩
  have hlcx1 : leftCrop img t ≤ x1 := leftCrop_le_of_false img t x1 hcolx1
  have hx1rc : x1 < rightCrop img t := lt_rightCrop_of_false img t x1 hcolx1 hx1W
  have hrowbc : isBlackRow img t (bottomCrop img t - 1) = false :=
    bottomCrop_row_false img t (by omega)
  obtain ⟨x2, hx2W, hbx2⟩ := (not_rowBlank_iff img t (bottomCrop img t - 1)).mp
    ((isBlackRow_eq_false img t (bottomCrop img t - 1)).mp hrowbc)
  have hcolx2 : isBlackCol img t x2 (topCrop img t) (bottomCrop img t) = false := by
    rw [isBlackCol_eq_false, not_colBlank_iff]
    exact ⟨bottomCrop img t - 1, by omega, by omega, hbx2⟩
  have hlcx2 : leftCrop img t ≤ x2 := leftCrop_le_of_false img t x2 hcolx2
  have hcollc : isBlackCol img t (leftCrop img t) (topCrop img t) (bottomCrop img t) = false :=
    leftCrop_col_false img t (Nat.lt_of_lt_of_le hlr hrcW)
  obtain ⟨y1, hy1a, hy1b, hby1⟩ := (not_colBlank_iff img t (leftCrop img t) _ _).mp
    ((isBlackCol_eq_false img t (leftCrop img t) _ _).mp hcollc)
  have hcolrc : isBlackCol img t (rightCrop img t - 1) (topCrop img t) (bottomCrop img t) = false :=
    rightCrop_col_false img t (by omega)
  obtain ⟨y2, hy2a, hy2b, hby2⟩ := (not_colBlank_iff img t (rightCrop img t - 1) _ _).mp
    ((isBlackCol_eq_false img t (rightCrop img t - 1) _ _).mp hcolrc)
  have hrow0 : isBlackRow (removeBlackBars img t) t 0 = false := by
    rw [isBlackRow_eq_false, not_rowBlank_iff]
    refine ⟨x1 - leftCrop img t, ?_, ?_⟩
    · show x1 - leftCrop img t < rightCrop img t - leftCrop img t
      omega
    · show pixelDark t (img.data (x1 - leftCrop img t + leftCrop img t) (0 + topCrop img t)) = false
      rw [Nat.sub_add_cancel hlcx1, Nat.zero_add]
      exact hbx1
  have htc2 : topCrop (removeBlackBars img t) t = 0 := by
    unfold topCrop
    exact scanCount_eq_zero _ 0 _ hrow0
  have hrowH2 : isBlackRow (removeBlackBars img t) t ((removeBlackBars img t).height - 1) = false := by
    rw [isBlackRow_eq_false, not_rowBlank_iff]
    refine ⟨x2 - leftCrop img t, ?_, ?_⟩
    · show x2 - leftCrop img t < rightCrop img t - leftCrop img t
      have hx2rc : x2 < rightCrop img t := lt_rightCrop_of_false img t x2 hcolx2 hx2W
      omega
    · show pixelDark t (img.data (x2 - leftCrop img t + leftCrop img t)
        ((removeBlackBars img t).height - 1 + topCrop img t)) = false
      have harith : (removeBlackBars img t).height - 1 + topCrop img t = bottomCrop img t - 1 := by
        show bottomCrop img t - topCrop img t - 1 + topCrop img t = bottomCrop img t - 1
        omega
      rw [Nat.sub_add_cancel hlcx2, harith]
      exact hbx2
  have hbb2 : botBlank (removeBlackBars img t) t = 0 := by
    unfold botBlank
    apply scanCount_eq_zero
    show isBlackRow (removeBlackBars img t) t ((removeBlackBars img t).height - 1 - 0) = false
    rw [Nat.sub_zero]
    exact hrowH2
  have hbc2 : bottomCrop (removeBlackBars img t) t = (removeBlackBars img t).height := by
    unfold bottomCrop
    rw [hbb2, Nat.sub_zero]
  have hcol0 : isBlackCol (removeBlackBars img t) t 0 0 (removeBlackBars img t).height = false := by
    rw [isBlackCol_eq_false, not_colBlank_iff]
    refine ⟨y1 - topCrop img t, Nat.zero_le _, ?_, ?_⟩
    · show y1 - topCrop img t < bottomCrop img t - topCrop img t
      omega
    · show pixelDark t (img.data (0 + leftCrop img t) (y1 - topCrop img t + topCrop img t)) = false
      rw [Nat.zero_add, Nat.sub_add_cancel hy1a]
      exact hby1
  have hlc2 : leftCrop (removeBlackBars img t) t = 0 := by
    unfold leftCrop
    simp only [htc2, hbc2]
    exact scanCount_eq_zero _ 0 _ hcol0
  have hcolW2 : isBlackCol (removeBlackBars img t) t ((removeBlackBars img t).width - 1)
      0 (removeBlackBars img t).height = false := by
    rw [isBlackCol_eq_false, not_colBlank_iff]
    refine ⟨y2 - topCrop img t, Nat.zero_le _, ?_, ?_⟩
    · show y2 - topCrop img t < bottomCrop img t - topCrop img t
      omega
    · show pixelDark t (img.data ((removeBlackBars img t).width - 1 + leftCrop img t)
        (y2 - topCrop img t + topCrop img t)) = false
      have harith : (removeBlackBars img t).width - 1 + leftCrop img t = rightCrop img t - 1 := by
        show rightCrop img t - leftCrop img t - 1 + leftCrop img t = rightCrop img t - 1
        omega
      rw [harith, Nat.sub_add_cancel hy2a]
      exact hby2
  have hrb2 : rightBlank (removeBlackBars img t) t = 0 := by
    unfold rightBlank
    simp only [htc2, hbc2]
    apply scanCount_eq_zero
    show isBlackCol (removeBlackBars img t) t ((removeBlackBars img t).width - 1 - 0)
      0 (removeBlackBars img t).height = false
    rw [Nat.sub_zero]
    exact hcolW2
  have hrc2 : rightCrop (removeBlackBars img t) t = (removeBlackBars img t).width := by
    unfold rightCrop
    rw [hrb2, Nat.sub_zero]
  exact ⟨htc2, hbc2, hlc2, hrc2⟩

/-! ## Claim theorems for the border-trim processor -/

set_option maxRecDepth 200000 in
/-- C1 (code_bug evidence): on the all-black 100×50 image at threshold 30 the
crop scans drive `topCrop` to 50, `bottomCrop` to 0, `leftCrop` to 100 and
`rightCrop` to 0, so the crop rectangle handed to `new ImageData` has width
−100 and height −50.  There is no explicit degenerate-image detection, no
pass-through, and no `EmptyAfterTrim` result: the arithmetic simply
underflows, contradicting the claimed guard. -/
theorem removeBlackBars_allBlack_underflow :
    croppedWidthZ allBlackImg 30 = -100 ∧ croppedHeightZ allBlackImg 30 = -50 ∧
    topCrop allBlackImg 30 = 50 ∧ bottomCrop allBlackImg 30 = 0 ∧
    leftCrop allBlackImg 30 = 100 ∧ rightCrop allBlackImg 30 = 0 := by
  refine ⟨?_, ?_, ?_, ?_, ?_, ?_⟩ <;> decide

/-- C3: the border-trim operation computes `topCrop` as the count of
consecutive blank rows from the top (blank rows before it, a non-blank row at
it when it is not the whole height), `bottomCrop` symmetrically from the
bottom, restricts the left/right column scans to the row band
`[topCrop, bottomCrop)`, and copies the output rectangle pixel-for-pixel with
no resampling; on the 100×50 image with a solid black top 10-row band the
output is 100 wide and 40 high with `topCrop = 10`. -/
theorem removeBlackBars_algorithm_spec :
    (∀ img : ImageData, ∀ t : Nat,
      (∀ y, y < topCrop img t → RowBlank img t y)
      ∧ (topCrop img t < img.height → ¬ RowBlank img t (topCrop img t))
      ∧ bottomCrop img t ≤ img.height
      ∧ (∀ y, bottomCrop img t ≤ y → y < img.height → RowBlank img t y)
      ∧ (1 ≤ bottomCrop img t → ¬ RowBlank img t (bottomCrop img t - 1))
      ∧ (∀ x, x < leftCrop img t → ColBlank img t x (topCrop img t) (bottomCrop img t))
      ∧ (leftCrop img t < img.width →
          ¬ ColBlank img t (leftCrop img t) (topCrop img t) (bottomCrop img t))
      ∧ (∀ x, rightCrop img t ≤ x → x < img.width →
          ColBlank img t x (topCrop img t) (bottomCrop img t))
      ∧ (1 ≤ rightCrop img t →
          ¬ ColBlank img t (rightCrop img t - 1) (topCrop img t) (bottomCrop img t))
      ∧ (removeBlackBars img t).width = rightCrop img t - leftCrop img t
      ∧ (removeBlackBars img t).height = bottomCrop img t - topCrop img t
      ∧ (∀ x y, x < (removeBlackBars img t).width → y < (removeBlackBars img t).height →
          (removeBlackBars img t).data x y = img.data (x + leftCrop img t) (y + topCrop img t)))
    ∧ ((removeBlackBars topBandImg 30).width = 100
      ∧ (removeBlackBars topBandImg 30).height = 40
      ∧ topCrop topBandImg 30 = 10) := by
  constructor
  · intro img t
    refine ⟨?_, ?_, bottomCrop_le img t, ?_, ?_, ?_, ?_, ?_, ?_, rfl, rfl, ?_⟩
    · intro y hy
      exact (isBlackRow_iff img t y).mp (row_black_of_lt_topCrop img t y hy)
    · intro h
      exact (isBlackRow_eq_false img t _).mp (topCrop_row_false img t h)
    · intro y h1 h2
      exact (isBlackRow_iff img t y).mp (row_black_of_ge_bottomCrop img t y h1 h2)
    · intro h
      exact (isBlackRow_eq_false img t _).mp (bottomCrop_row_false img t h)
    · intro x hx
      exact (isBlackCol_iff img t x _ _).mp (col_black_of_lt_leftCrop img t x hx)
    · intro h
      exact (isBlackCol_eq_false img t _ _ _).mp (leftCrop_col_false img t h)
    · intro x h1 h2
      exact (isBlackCol_iff img t x _ _).mp (col_black_of_ge_rightCrop img t x h1 h2)
    · intro h
      exact (isBlackCol_eq_false img t _ _ _).mp (rightCrop_col_false img t h)
    · intro x y _ _
      rfl
  · refine ⟨?_, ?_, ?_⟩ <;> decide

set_option maxRecDepth 200000 in
/-- Witness for C3: concrete instances of the characterization at the
letterboxed test image — row 5 is blank, row 10 (the computed `topCrop`) is
not, and an interior output pixel is a copy of the source pixel shifted by
the crop offsets. -/
theorem removeBlackBars_algorithm_spec_witness :
    RowBlank topBandImg 30 5 ∧ ¬ RowBlank topBandImg 30 10 ∧
    (removeBlackBars topBandImg 30).data 3 7
      = topBandImg.data (3 + leftCrop topBandImg 30) (7 + topCrop topBandImg 30) := by
  obtain ⟨h1, h2, _, _, _, _, _, _, _, _, _, h12⟩ :=
    removeBlackBars_algorithm_spec.1 topBandImg 30
  refine ⟨h1 5 (by decide), ?_, h12 3 7 (by decide) (by decide)⟩
  have h10 : topCrop topBandImg 30 = 10 := removeBlackBars_algorithm_spec.2.2.2
  have := h2 (by decide)
  rwa [h10] at this

set_option maxRecDepth 200000 in
/-- C4 counterexample: the 1×1 single-black-pixel image is not zero-sized,
yet the crop arithmetic produces a −1 × −1 output rectangle, refuting
"never negative or zero unless the source image was itself zero-sized". -/
theorem processedImage_dims_counterexample :
    oneBlackImg.width = 1 ∧ oneBlackImg.height = 1 ∧
    croppedWidthZ oneBlackImg 30 = -1 ∧ croppedHeightZ oneBlackImg 30 = -1 := by
  refine ⟨rfl, rfl, ?_, ?_⟩ <;> decide

/-- C4 (amended): the border-trim output dimensions are ≤ the input dimensions
on both axes; they are at least 1 whenever the image contains a pixel with a
channel above the threshold (so they are never zero or negative except for
zero-sized or entirely blank sources); and when the image has no blank border
rows or columns the output dimensions equal the input dimensions. -/
theorem processedImage_dims_amended (img : ImageData) (t : Nat) :
    croppedWidthZ img t ≤ (img.width : Int)
    ∧ croppedHeightZ img t ≤ (img.height : Int)
    ∧ (removeBlackBars img t).width ≤ img.width
    ∧ (removeBlackBars img t).height ≤ img.height
    ∧ (∀ x0 y0, x0 < img.width → y0 < img.height →
        pixelDark t (img.data x0 y0) = false →
        1 ≤ croppedWidthZ img t ∧ 1 ≤ croppedHeightZ img t
        ∧ 1 ≤ (removeBlackBars img t).width ∧ 1 ≤ (removeBlackBars img t).height)
    ∧ (1 ≤ img.width → 1 ≤ img.height →
        ¬ RowBlank img t 0 → ¬ RowBlank img t (img.height - 1) →
        ¬ ColBlank img t 0 0 img.height → ¬ ColBlank img t (img.width - 1) 0 img.height →
        (removeBlackBars img t).width = img.width
        ∧ (removeBlackBars img t).height = img.height) := by
  have hrcW := rightCrop_le img t
  have hbcH := bottomCrop_le img t
  refine ⟨?_, ?_, ?_, ?_, ?_, ?_⟩
  · unfold croppedWidthZ
    omega
  · unfold croppedHeightZ
    omega
  · show rightCrop img t - leftCrop img t ≤ img.width
    omega
  · show bottomCrop img t - topCrop img t ≤ img.height
    omega
  · intro x0 y0 hx hy hb
    obtain ⟨a, b, c, d⟩ := cropBounds img t x0 y0 hx hy hb
    refine ⟨?_, ?_, ?_, ?_⟩
    · unfold croppedWidthZ
      omega
    · unfold croppedHeightZ
      omega
    · show 1 ≤ rightCrop img t - leftCrop img t
      omega
    · show 1 ≤ bottomCrop img t - topCrop img t
      omega
  · intro hW hH hr0 hrH hc0 hcW
    have h0 : isBlackRow img t 0 = false := (isBlackRow_eq_false img t 0).mpr hr0
    have htc : topCrop img t = 0 := by
      unfold topCrop
      exact scanCount_eq_zero _ 0 _ h0
    have hHrow : isBlackRow img t (img.height - 1) = false :=
      (isBlackRow_eq_false img t _).mpr hrH
    have hbb : botBlank img t = 0 := by
      unfold botBlank
      apply scanCount_eq_zero
      show isBlackRow img t (img.height - 1 - 0) = false
      rw [Nat.sub_zero]
      exact hHrow
    have hbc : bottomCrop img t = img.height := by
      unfold bottomCrop
      rw [hbb, Nat.sub_zero]
    have hcol0 : isBlackCol img t 0 (topCrop img t) (bottomCrop img t) = false := by
      rw [htc, hbc]
      exact (isBlackCol_eq_false img t 0 0 img.height).mpr hc0
    have hlc : leftCrop img t = 0 := by
      unfold leftCrop
      exact scanCount_eq_zero _ 0 _ hcol0
    have hcolW : isBlackCol img t (img.width - 1) (topCrop img t) (bottomCrop img t) = false := by
      rw [htc, hbc]
      exact (isBlackCol_eq_false img t _ 0 img.height).mpr hcW
    have hrb : rightBlank img t = 0 := by
      unfold rightBlank
      apply scanCount_eq_zero
      show isBlackCol img t (img.width - 1 - 0) (topCrop img t) (bottomCrop img t) = false
      rw [Nat.sub_zero]
      exact hcolW
    have hrc : rightCrop img t = img.width := by
      unfold rightCrop
      rw [hrb, Nat.sub_zero]
    constructor
    · show rightCrop img t - leftCrop img t = img.width
      rw [hrc, hlc, Nat.sub_zero]
    · show bottomCrop img t - topCrop img t = img.height
      rw [hbc, htc, Nat.sub_zero]

set_option maxRecDepth 200000 in
/-- Witness for C4 (amended): the letterboxed test image has a bright pixel
and positive output extents; the all-white image has no blank borders and
keeps its dimensions. -/
theorem processedImage_dims_amended_witness :
    (1 ≤ croppedWidthZ topBandImg 30 ∧ 1 ≤ croppedHeightZ topBandImg 30)
    ∧ ((removeBlackBars noBorderImg 30).width = noBorderImg.width
       ∧ (removeBlackBars noBorderImg 30).height = noBorderImg.height) := by
  constructor
  · have h := (processedImage_dims_amended topBandImg 30).2.2.2.2.1 0 20
      (by decide) (by decide) (by decide)
    exact ⟨h.1, h.2.1⟩
  · refine (processedImage_dims_amended noBorderImg 30).2.2.2.2.2
      (by decide) (by decide) ?_ ?_ ?_ ?_
    · exact (not_rowBlank_iff noBorderImg 30 0).mpr ⟨0, by decide, by decide⟩
    · exact (not_rowBlank_iff noBorderImg 30 _).mpr ⟨0, by decide, by decide⟩
    · exact (not_colBlank_iff noBorderImg 30 0 0 _).mpr ⟨0, Nat.le_refl 0, by decide, by decide⟩
    · exact (not_colBlank_iff noBorderImg 30 _ 0 _).mpr ⟨0, Nat.le_refl 0, by decide, by decide⟩

/-- C5: the border-trim operation is idempotent on every image for which
trimming is well defined (the image contains at least one pixel with a
channel above the threshold, exactly the images whose crop rectangle is
nonempty): a second application with the same threshold crops nothing
further and returns its input unchanged. -/
theorem removeBlackBars_idempotent (img : ImageData) (t x0 y0 : Nat)
    (hx : x0 < img.width) (hy : y0 < img.height)
    (hb : pixelDark t (img.data x0 y0) = false) :
    removeBlackBars (removeBlackBars img t) t = removeBlackBars img t := by
  obtain ⟨h1, h2, h3, h4⟩ := trim_crops_of_bright img t x0 y0 hx hy hb
  exact removeBlackBars_eq_self _ t h1 h2 h3 h4

set_option maxRecDepth 200000 in
/-- Witness for C5: idempotence at the concrete letterboxed test image. -/
theorem removeBlackBars_idempotent_witness :
    removeBlackBars (removeBlackBars topBandImg 30) 30 = removeBlackBars topBandImg 30 :=
  removeBlackBars_idempotent topBandImg 30 0 20 (by decide) (by decide) (by decide)

/-- C10: for every image of positive size containing at least one pixel with
some channel strictly above the threshold, the crop bounds satisfy
`0 ≤ topCrop < bottomCrop ≤ height` and `0 ≤ leftCrop < rightCrop ≤ width`,
so the output width and height are each at least 1. -/
theorem removeBlackBars_crop_bounds (img : ImageData) (t x0 y0 : Nat)
    (hx : x0 < img.width) (hy : y0 < img.height)
    (hb : pixelDark t (img.data x0 y0) = false) :
    topCrop img t < bottomCrop img t ∧ bottomCrop img t ≤ img.height
    ∧ leftCrop img t < rightCrop img t ∧ rightCrop img t ≤ img.width
    ∧ 1 ≤ (removeBlackBars img t).width ∧ 1 ≤ (removeBlackBars img t).height := by
  obtain ⟨a, b, c, d⟩ := cropBounds img t x0 y0 hx hy hb
  refine ⟨a, b, c, d, ?_, ?_⟩
  · show 1 ≤ rightCrop img t - leftCrop img t
    omega
  · show 1 ≤ bottomCrop img t - topCrop img t
    omega

set_option maxRecDepth 200000 in
/-- Witness for C10: the crop bounds at the concrete letterboxed test
image. -/
theorem removeBlackBars_crop_bounds_witness :
    topCrop topBandImg 30 < bottomCrop topBandImg 30
    ∧ bottomCrop topBandImg 30 ≤ topBandImg.height
    ∧ leftCrop topBandImg 30 < rightCrop topBandImg 30
    ∧ rightCrop topBandImg 30 ≤ topBandImg.width
    ∧ 1 ≤ (removeBlackBars topBandImg 30).width
    ∧ 1 ≤ (removeBlackBars topBandImg 30).height :=
  removeBlackBars_crop_bounds topBandImg 30 5 20 (by decide) (by decide) (by decide)

/-! ## Claim theorem for the candidate generator -/

set_option maxRecDepth 100000 in
/-- C2 (code_bug evidence): for the accepted identifier "80057281" the
candidate generator emits colliding descriptor ids.  `host.split('.')[1]`
equals `"1"` for every CDN host, so the descriptor at position 0 (first host,
Full HD, pattern 0) and the one at position 25 (second host, Full HD,
pattern 0) carry the same id, and the generated batch is not pairwise
distinct. -/
theorem getNetflixThumbnails_duplicate_ids :
    (getNetflixThumbnailIds "80057281")[0]? = some "80057281_1_Full HD_0"
    ∧ (getNetflixThumbnailIds "80057281")[25]? = some "80057281_1_Full HD_0"
    ∧ ¬ (getNetflixThumbnailIds "80057281").Nodup := by
  refine ⟨by decide, by decide, fun h => ?_⟩
  have h2 : (getNetflixThumbnailIds "80057281")[0]?
      = (getNetflixThumbnailIds "80057281")[25]? := by decide
  have h0 : 0 < (getNetflixThumbnailIds "80057281").length := by decide
  exact absurd (List.getElem?_inj h0 h h2) (by decide)

/-! ## Archive-builder lemmas -/

theorem zipLoop_spec {α : Type} (thumbs : List Thumbnail) (fetch : Thumbnail → Option α) :
    ∀ (l : List String) (i : Nat) (entries : List (String × α)) (s : Nat),
      (zipLoop thumbs fetch l i entries s).2 = s + l.countP (itemOk thumbs fetch)
      ∧ (zipLoop thumbs fetch l i entries s).1.length
          = entries.length + l.countP (itemOk thumbs fetch) := by
  intro l
  induction l with
  | nil =>
    intro i entries s
    simp [zipLoop]
  | cons tid rest ih =>
    intro i entries s
    rw [List.countP_cons]
    cases hf : findThumbnail thumbs tid with
    | none =>
      have hok : itemOk thumbs fetch tid = false := by simp [itemOk, hf]
      have hz : zipLoop thumbs fetch (tid :: rest) i entries s
          = zipLoop thumbs fetch rest (i + 1) entries s := by
        simp [zipLoop, hf]
      rw [hz, hok]
      obtain ⟨h1, h2⟩ := ih (i + 1) entries s
      constructor
      · simp only [Bool.false_eq_true, if_false, Nat.add_zero]
        exact h1
      · simp only [Bool.false_eq_true, if_false, Nat.add_zero]
        exact h2
    | some t =>
      cases hb : fetch t with
      | none =>
        have hok : itemOk thumbs fetch tid = false := by
          simp [itemOk, hf, hb]
        have hz : zipLoop thumbs fetch (tid :: rest) i entries s
            = zipLoop thumbs fetch rest (i + 1) entries s := by
          simp [zipLoop, hf, hb]
        rw [hz, hok]
        obtain ⟨h1, h2⟩ := ih (i + 1) entries s
        constructor
        · simp only [Bool.false_eq_true, if_false, Nat.add_zero]
          exact h1
        · simp only [Bool.false_eq_true, if_false, Nat.add_zero]
          exact h2
      | some b =>
        have hok : itemOk thumbs fetch tid = true := by
          simp [itemOk, hf, hb]
        have hz : zipLoop thumbs fetch (tid :: rest) i entries s
            = zipLoop thumbs fetch rest (i + 1)
                (entries ++ [(zipFilename t i, b)]) (s + 1) := by
          simp [zipLoop, hf, hb]
        rw [hz, hok]
        obtain ⟨h1, h2⟩ := ih (i + 1) (entries ++ [(zipFilename t i, b)]) (s + 1)
        constructor
        · rw [h1]
          simp only [if_true]
          omega
        · rw [h2, List.length_append]
          simp only [if_true, List.length_cons, List.length_nil]
          omega

theorem downloadMultipleAsZip_ok_spec {α : Type} (thumbs : List Thumbnail)
    (fetch : Thumbnail → Option α) (ids : List String) (r : ZipResult α)
    (h : downloadMultipleAsZip thumbs fetch ids = Except.ok r) :
    r.successful = ids.countP (itemOk thumbs fetch) ∧ 1 ≤ r.successful
    ∧ r.entries.length = r.successful ∧ r.total = ids.length := by
  obtain ⟨h1, h2⟩ := zipLoop_spec thumbs fetch ids 0 [] 0
  unfold downloadMultipleAsZip at h
  by_cases hz : (zipLoop thumbs fetch ids 0 [] 0).2 = 0
  · rw [if_pos hz] at h
    exact absurd h (by simp)
  · rw [if_neg hz] at h
    have hr := Except.ok.inj h
    subst hr
    simp only [List.length_nil, Nat.zero_add] at h1 h2
    refine ⟨?_, ?_, ?_, ?_⟩
    · show (zipLoop thumbs fetch ids 0 [] 0).2 = ids.countP (itemOk thumbs fetch)
      exact h1
    · show 1 ≤ (zipLoop thumbs fetch ids 0 [] 0).2
      omega
    · show (zipLoop thumbs fetch ids 0 [] 0).1.length = (zipLoop thumbs fetch ids 0 [] 0).2
      rw [h2, h1]
    · rfl

theorem downloadMultipleAsZip_error_spec {α : Type} (thumbs : List Thumbnail)
    (fetch : Thumbnail → Option α) (ids : List String) (e : String)
    (h : downloadMultipleAsZip thumbs fetch ids = Except.error e) :
    e = "No thumbnails could be processed" ∧ ids.countP (itemOk thumbs fetch) = 0 := by
  obtain ⟨h1, -⟩ := zipLoop_spec thumbs fetch ids 0 [] 0
  unfold downloadMultipleAsZip at h
  by_cases hz : (zipLoop thumbs fetch ids 0 [] 0).2 = 0
  · rw [if_pos hz] at h
    have he := Except.error.inj h
    constructor
    · exact he.symm
    · omega
  · rw [if_neg hz] at h
    exact absurd h (by simp)

/-! ## Claim theorems for the archive builder -/

/-- C7: the archive builder never aborts the batch for one bad item — every
id that resolves and fetches becomes an entry regardless of other failures;
the overall result is an error exactly when zero items were included (the
`'No thumbnails could be processed'` throw), and on success the `successful`
counter equals the number of included items, the entry list has that length,
`total` is the full input count, and the success count plus the (implicit)
failure count `total − successful` equals the number of input items. -/
theorem downloadMultipleAsZip_contract {α : Type} (thumbs : List Thumbnail)
    (fetch : Thumbnail → Option α) (ids : List String) :
    (∀ e, downloadMultipleAsZip thumbs fetch ids = Except.error e →
      e = "No thumbnails could be processed"
      ∧ ids.countP (itemOk thumbs fetch) = 0)
    ∧ (∀ r, downloadMultipleAsZip thumbs fetch ids = Except.ok r →
      r.successful = ids.countP (itemOk thumbs fetch)
      ∧ 1 ≤ r.successful
      ∧ r.entries.length = r.successful
      ∧ r.total = ids.length
      ∧ r.successful ≤ r.total
      ∧ r.successful + (r.total - r.successful) = ids.length) := by
  constructor
  · intro e he
    exact downloadMultipleAsZip_error_spec thumbs fetch ids e he
  · intro r hr
    obtain ⟨a, b, c, d⟩ := downloadMultipleAsZip_ok_spec thumbs fetch ids r hr
    have hle : ids.countP (itemOk thumbs fetch) ≤ ids.length :=
      List.countP_le_length _
    refine ⟨a, b, c, d, ?_, ?_⟩ <;> omega

/-- Witness for C7: the contract applied to a concrete two-item batch in
which one item fetches and one fails. -/
theorem downloadMultipleAsZip_contract_witness :
    1 ≤ (["a", "b"] : List String).countP (itemOk demoThumbs demoFetch)
    ∧ (["a", "b"] : List String).countP (itemOk demoThumbs demoFetch) = 1 := by
  have h := (downloadMultipleAsZip_contract demoThumbs demoFetch ["a", "b"]).2
    ⟨[("netflix_80057281_netflix_cdn_main_0.jpg", 7)], 1, 2⟩ rfl
  constructor
  · rw [← h.1]
  · exact h.1.symm

/-- C8 (amended): a `downloadSelected` request with exactly one selected item
always bypasses archiving — it can never return a zip, and returns the raw
fetched bytes whenever the item resolves and fetches; `downloadAllAsZip`, by
contrast, archives whenever at least one item is processable, even when its
working list holds exactly one item. -/
theorem singleItem_bypass_amended {α : Type} (thumbs : List Thumbnail)
    (fetch : Thumbnail → Option α) :
    (∀ tid r, downloadSelected thumbs fetch [tid] ≠ DownloadOutcome.zip r)
    ∧ (∀ tid t b, findThumbnail thumbs tid = some t → fetch t = some b →
        downloadSelected thumbs fetch [tid] = DownloadOutcome.raw b)
    ∧ (∀ ids, 1 ≤ ids.countP (itemOk thumbs fetch) →
        ∃ r, downloadAllAsZip thumbs fetch ids = DownloadOutcome.zip r) := by
  have hsel : ∀ tid, downloadSelected thumbs fetch [tid]
      = downloadSingle thumbs fetch tid := by
    intro tid
    unfold downloadSelected
    simp
  refine ⟨?_, ?_, ?_⟩
  · intro tid r
    rw [hsel]
    cases hf : findThumbnail thumbs tid with
    | none => simp [downloadSingle, hf]
    | some t =>
      cases hb : fetch t with
      | none => simp [downloadSingle, hf, hb]
      | some b => simp [downloadSingle, hf, hb]
  · intro tid t b hf hb
    rw [hsel]
    simp [downloadSingle, hf, hb]
  · intro ids hcnt
    have h2 : ids.countP (itemOk thumbs fetch) ≤ ids.length :=
      List.countP_le_length _
    have hlen : ¬ ids.length = 0 := by omega
    cases hz : downloadMultipleAsZip thumbs fetch ids with
    | error e =>
      obtain ⟨-, h0⟩ := downloadMultipleAsZip_error_spec thumbs fetch ids e hz
      omega
    | ok r =>
      refine ⟨r, ?_⟩
      unfold downloadAllAsZip
      rw [if_neg hlen, hz]

/-- Witness for C8 (amended): concrete single-item behaviour of both entry
points. -/
theorem singleItem_bypass_amended_witness :
    downloadSelected demoThumbs demoFetch ["a"] = DownloadOutcome.raw 7
    ∧ ∃ r, downloadAllAsZip demoThumbs demoFetch ["a"] = DownloadOutcome.zip r := by
  constructor
  · exact (singleItem_bypass_amended demoThumbs demoFetch).2.1 "a"
      ⟨"a", "u1", "80057281", "main", "netflix_cdn"⟩ 7 rfl rfl
  · exact (singleItem_bypass_amended demoThumbs demoFetch).2.2 ["a"] (by decide)

/-- C8 counterexample: a download-all request whose working list has exactly
one item is delivered as a zip archive, not as raw bytes. -/
theorem downloadAllAsZip_single_item_zips :
    (["a"] : List String).length = 1
    ∧ downloadAllAsZip demoThumbs demoFetch ["a"]
        = DownloadOutcome.zip ⟨[("netflix_80057281_netflix_cdn_main_0.jpg", 7)], 1, 1⟩ :=
  ⟨rfl, rfl⟩

/-! ## Probe-engine ordering lemmas -/

theorem foldl_set_length {β : Type} (v : Nat → β) :
    ∀ (sched : List Nat) (acc : List β),
      (sched.foldl (fun a i => a.set i (v i)) acc).length = acc.length := by
  intro sched
  induction sched with
  | nil => intro acc; rfl
  | cons i rest ih =>
    intro acc
    rw [List.foldl_cons, ih, List.length_set]

theorem foldl_set_getElem_not_mem {β : Type} (v : Nat → β) :
    ∀ (sched : List Nat) (acc : List β) (j : Nat), j ∉ sched →
      (sched.foldl (fun a i => a.set i (v i)) acc)[j]? = acc[j]? := by
  intro sched
  induction sched with
  | nil => intro acc j _; rfl
  | cons i rest ih =>
    intro acc j hj
    have hne : i ≠ j := fun h => hj (h ▸ List.mem_cons_self i rest)
    have hrest : j ∉ rest := fun h => hj (List.mem_cons_of_mem i h)
    rw [List.foldl_cons, ih _ j hrest, List.getElem?_set_ne hne]

theorem foldl_set_getElem_mem {β : Type} (v : Nat → β) :
    ∀ (sched : List Nat) (acc : List β) (j : Nat), j ∈ sched → j < acc.length →
      (sched.foldl (fun a i => a.set i (v i)) acc)[j]? = some (v j) := by
  intro sched
  induction sched with
  | nil =>
    intro acc j h
    simp at h
  | cons i rest ih =>
    intro acc j hmem hlt
    rw [List.foldl_cons]
    by_cases hr : j ∈ rest
    · exact ih (acc.set i (v i)) j hr (by rw [List.length_set]; exact hlt)
    · have hij : j = i := by
        rcases List.mem_cons.mp hmem with h | h
        · exact h
        · exact absurd h hr
      subst hij
      rw [foldl_set_getElem_not_mem v rest _ j hr]
      simp [List.getElem?_set_self', hlt]

/-- C9: the probe engine's observable result sequence is index-ordered, not
completion-ordered: for every candidate list and every completion schedule
that is a permutation of the candidate indices, the collected results equal
the per-candidate outcomes in generation order — the schedule does not appear
on the right-hand side. -/
theorem probe_results_order (candidates : List Thumbnail) (loads : Thumbnail → Bool)
    (schedule : List Nat) (hperm : schedule.Perm (List.range candidates.length)) :
    testAndFilterImages candidates loads schedule
      = candidates.map fun c => some (loads c) := by
  apply List.ext_getElem?
  intro j
  unfold testAndFilterImages
  by_cases hj : j < candidates.length
  · have hmem : j ∈ schedule := hperm.mem_iff.mpr (List.mem_range.mpr hj)
    rw [foldl_set_getElem_mem _ schedule _ j hmem
      (by rw [List.length_map]; exact hj)]
    rw [List.getElem?_map]
    have hget : candidates[j]? = some candidates[j] := List.getElem?_eq_getElem hj
    rw [hget]
    simp [probeAt, hget]
  · have hnotmem : j ∉ schedule := fun hmem =>
      hj (List.mem_range.mp (hperm.mem_iff.mp hmem))
    rw [foldl_set_getElem_not_mem _ schedule _ j hnotmem]
    have h1 : (candidates.map fun _ => (none : Option Bool)).length ≤ j := by
      rw [List.length_map]
      omega
    have h2 : (candidates.map fun c => some (loads c)).length ≤ j := by
      rw [List.length_map]
      omega
    rw [List.getElem?_eq_none h1, List.getElem?_eq_none h2]

/-- Witness for C9: a two-candidate batch whose probes complete in reversed
order still reports results in generation order. -/
theorem probe_results_order_witness :
    testAndFilterImages demoThumbs demoLoads [1, 0]
      = demoThumbs.map fun c => some (demoLoads c) :=
  probe_results_order demoThumbs demoLoads [1, 0] (by decide)

/-! ## Resolver lemmas: the literal-plus-digits patterns -/

theorem digitRun_cons (d : Char) (l : List Char) (hd : isDigitChar d = true) :
    digitRun (d :: l) = d :: l.takeWhile isDigitChar := by
  unfold digitRun
  rw [List.takeWhile_cons, if_pos hd]

theorem digitRun_props (d : Char) (l : List Char) (hd : isDigitChar d = true) :
    digitRun (d :: l) ≠ [] ∧ ∀ c ∈ digitRun (d :: l), isDigitChar c = true := by
  rw [digitRun_cons d l hd]
  refine ⟨by simp, ?_⟩
  intro c hc
  rcases List.mem_cons.mp hc with h | h
  · exact h ▸ hd
  · exact List.mem_takeWhile_imp h

theorem litMatch_iff : ∀ (lit s : List Char), litMatch lit s = true ↔ ∃ t, s = lit ++ t := by
  intro lit
  induction lit with
  | nil =>
    intro s
    simp [litMatch]
  | cons a as ih =>
    intro s
    cases s with
    | nil => simp [litMatch]
    | cons b bs =>
      simp only [litMatch, Bool.and_eq_true, beq_iff_eq, List.cons_append, List.cons.injEq]
      rw [ih bs]
      constructor
      · rintro ⟨h1, t, h2⟩
        exact ⟨t, h1.symm, h2⟩
      · rintro ⟨t, h1, h2⟩
        exact ⟨h1.symm, t, h2⟩

theorem litDigitsHere_some_imp (lit s ds : List Char)
    (h : litDigitsHere lit s = some ds) :
    ∃ d post, s = lit ++ d :: post ∧ isDigitChar d = true
      ∧ ds = digitRun (d :: post) := by
  unfold litDigitsHere at h
  by_cases hm : litMatch lit s = true
  · rw [if_pos hm] at h
    obtain ⟨t, rfl⟩ := (litMatch_iff lit s).mp hm
    rw [List.drop_left] at h
    cases t with
    | nil => exact absurd h (by simp)
    | cons d post =>
      change (if isDigitChar d = true then some (digitRun (d :: post)) else none) = some ds at h
      by_cases hd : isDigitChar d = true
      · rw [if_pos hd] at h
        exact ⟨d, post, rfl, hd, (Option.some.inj h).symm⟩
      · rw [if_neg hd] at h
        exact absurd h (by simp)
  · rw [if_neg hm] at h
    exact absurd h (by simp)


theorem litDigitsHere_of_decomp (lit d : List Char) (dc : Char) (post : List Char)
    (hs : d = dc :: post) (hd : isDigitChar dc = true) :
    litDigitsHere lit (lit ++ d) = some (digitRun d) := by
  subst hs
  unfold litDigitsHere
  rw [if_pos ((litMatch_iff lit _).mpr ⟨dc :: post, rfl⟩), List.drop_left]
  change (if isDigitChar dc = true then some (digitRun (dc :: post)) else none)
    = some (digitRun (dc :: post))
  rw [if_pos hd]

theorem litDigitsHere_none_imp (lit s : List Char)
    (h : litDigitsHere lit s = none) :
    ¬ ∃ d post, s = lit ++ d :: post ∧ isDigitChar d = true := by
  rintro ⟨d, post, rfl, hd⟩
  rw [litDigitsHere_of_decomp lit (d :: post) d post rfl hd] at h
  exact Option.noConfusion h

theorem matchLitDigits_some_imp (lit : List Char) :
    ∀ (s ds : List Char), matchLitDigits lit s = some ds →
      LitThenDigits lit s ∧ ds ≠ [] ∧ ∀ c ∈ ds, isDigitChar c = true := by
  intro s
  induction s with
  | nil =>
    intro ds h
    exact absurd h (by simp [matchLitDigits])
  | cons c rest ih =>
    intro ds h
    unfold matchLitDigits at h
    cases hh : litDigitsHere lit (c :: rest) with
    | some ds0 =>
      rw [hh] at h
      change some ds0 = some ds at h
      obtain rfl := Option.some.inj h
      obtain ⟨d, post, heq, hd, hds⟩ := litDigitsHere_some_imp lit (c :: rest) ds0 hh
      obtain ⟨hne, hdig⟩ := digitRun_props d post hd
      exact ⟨⟨[], d, post, heq, hd⟩, hds ▸ hne, hds ▸ hdig⟩
    | none =>
      rw [hh] at h
      change matchLitDigits lit rest = some ds at h
      obtain ⟨⟨pre, d, post, heq, hd⟩, hne, hdig⟩ := ih ds h
      exact ⟨⟨c :: pre, d, post, by rw [heq]; rfl, hd⟩, hne, hdig⟩

theorem matchLitDigits_ne_none (lit : List Char) :
    ∀ (s : List Char), LitThenDigits lit s → matchLitDigits lit s ≠ none := by
  intro s
  induction s with
  | nil =>
    rintro ⟨pre, d, post, heq, -⟩
    cases pre with
    | nil => cases lit with
      | nil => exact absurd heq (by simp)
      | cons a as => exact absurd heq (by simp)
    | cons p ps => exact absurd heq (by simp)
  | cons c rest ih =>
    rintro ⟨pre, d, post, heq, hd⟩ h
    unfold matchLitDigits at h
    cases hh : litDigitsHere lit (c :: rest) with
    | some ds0 =>
      rw [hh] at h
      exact Option.noConfusion h
    | none =>
      rw [hh] at h
      change matchLitDigits lit rest = none at h
      cases pre with
      | nil =>
        simp only [List.nil_append] at heq
        rw [heq] at hh
        rw [litDigitsHere_of_decomp lit (d :: post) d post rfl hd] at hh
        exact Option.noConfusion hh
      | cons p ps =>
        have hc : c = p ∧ rest = ps ++ lit ++ d :: post := by
          simp only [List.cons_append, List.cons.injEq] at heq
          exact heq
        exact ih ⟨ps, d, post, hc.2, hd⟩ h

theorem matchLitDigits_none_iff (lit s : List Char) :
    matchLitDigits lit s = none ↔ ¬ LitThenDigits lit s := by
  constructor
  · intro h hl
    exact matchLitDigits_ne_none lit s hl h
  · intro h
    cases hm : matchLitDigits lit s with
    | none => rfl
    | some ds =>
      exact absurd (matchLitDigits_some_imp lit s ds hm).1 h

/-! ## Resolver lemmas: the greedy dot-star pattern -/

theorem sds_nil : ¬ SlashDigitsSeg [] := by
  rintro ⟨mid, d, post, heq, -, -⟩
  cases mid with
  | nil => exact absurd heq (by simp)
  | cons m ms => exact absurd heq (by simp)

theorem sds_terminator (c : Char) (hc : isLineTerminator c = true) (rest : List Char) :
    ¬ SlashDigitsSeg (c :: rest) := by
  rintro ⟨mid, d, post, heq, hnl, -⟩
  cases mid with
  | nil =>
    simp only [List.nil_append, List.cons.injEq] at heq
    rw [heq.1] at hc
    exact absurd hc (by decide)
  | cons m ms =>
    simp only [List.cons_append, List.cons.injEq] at heq
    have hm := hnl m (List.mem_cons_self m ms)
    rw [← heq.1] at hm
    rw [hm] at hc
    exact Bool.noConfusion hc

theorem sds_slash_digit (d : Char) (rest : List Char) (hd : isDigitChar d = true) :
    SlashDigitsSeg ('/' :: d :: rest) :=
  ⟨[], d, rest, rfl, by simp, hd⟩

theorem sds_slash_nondigit (d : Char) (rest : List Char) (hd : isDigitChar d = false) :
    SlashDigitsSeg ('/' :: d :: rest) ↔ SlashDigitsSeg (d :: rest) := by
  constructor
  · rintro ⟨mid, d2, post, heq, hnl, hd2⟩
    cases mid with
    | nil =>
      simp only [List.nil_append, List.cons.injEq] at heq
      rw [← heq.2.1] at hd2
      rw [hd2] at hd
      exact absurd hd (by simp)
    | cons m ms =>
      simp only [List.cons_append, List.cons.injEq] at heq
      refine ⟨ms, d2, post, heq.2, ?_, hd2⟩
      intro c hc
      exact hnl c (List.mem_cons_of_mem m hc)
  · rintro ⟨mid, d2, post, heq, hnl, hd2⟩
    refine ⟨'/' :: mid, d2, post, by rw [List.cons_append, heq], ?_, hd2⟩
    intro c hc
    rcases List.mem_cons.mp hc with h | h
    · rw [h]
      decide
    · exact hnl c h

theorem sds_slash_nil : ¬ SlashDigitsSeg ['/'] := by
  rintro ⟨mid, d, post, heq, -, -⟩
  cases mid with
  | nil => exact absurd heq (by simp)
  | cons m ms =>
    simp only [List.cons_append, List.cons.injEq] at heq
    have := heq.2
    cases ms with
    | nil => exact absurd this (by simp)
    | cons m2 ms2 => exact absurd this (by simp)

theorem sds_other (c : Char) (rest : List Char) (hnl : isLineTerminator c = false)
    (hsl : c ≠ '/') :
    SlashDigitsSeg (c :: rest) ↔ SlashDigitsSeg rest := by
  constructor
  · rintro ⟨mid, d2, post, heq, hmidnl, hd2⟩
    cases mid with
    | nil =>
      simp only [List.nil_append, List.cons.injEq] at heq
      exact absurd heq.1 hsl
    | cons m ms =>
      simp only [List.cons_append, List.cons.injEq] at heq
      refine ⟨ms, d2, post, heq.2, ?_, hd2⟩
      intro c2 hc2
      exact hmidnl c2 (List.mem_cons_of_mem m hc2)
  · rintro ⟨mid, d2, post, heq, hmidnl, hd2⟩
    refine ⟨c :: mid, d2, post, by rw [List.cons_append, heq], ?_, hd2⟩
    intro c2 hc2
    rcases List.mem_cons.mp hc2 with h | h
    · rw [h]
      exact hnl
    · exact hmidnl c2 h

theorem lastSlashRunGo_none_iff :
    ∀ (r : List Char) (acc : Option (List Char)),
      lastSlashRunGo r acc = none ↔ (acc = none ∧ ¬ SlashDigitsSeg r) := by
  intro r
  induction r with
  | nil =>
    intro acc
    unfold lastSlashRunGo
    exact ⟨fun h => ⟨h, sds_nil⟩, fun h => h.1⟩
  | cons c rest ih =>
    intro acc
    unfold lastSlashRunGo
    by_cases hnl : isLineTerminator c = true
    · rw [if_pos hnl]
      exact ⟨fun h => ⟨h, sds_terminator c hnl rest⟩, fun h => h.1⟩
    · rw [if_neg hnl]
      have hnlF : isLineTerminator c = false := by
        cases h : isLineTerminator c
        · rfl
        · exact absurd h hnl
      by_cases hsl : c = '/'
      · subst hsl
        rw [if_pos rfl]
        cases rest with
        | nil =>
          rw [ih]
          constructor
          · rintro ⟨h, -⟩
            exact ⟨h, sds_slash_nil⟩
          · rintro ⟨h, -⟩
            exact ⟨h, sds_nil⟩
        | cons d rest2 =>
          change lastSlashRunGo (d :: rest2)
            (if isDigitChar d = true then some (digitRun (d :: rest2)) else acc) = none
            ↔ acc = none ∧ ¬ SlashDigitsSeg ('/' :: d :: rest2)
          by_cases hd : isDigitChar d = true
          · rw [if_pos hd, ih]
            constructor
            · rintro ⟨h, -⟩
              exact absurd h (by simp)
            · rintro ⟨-, hno⟩
              exact absurd (sds_slash_digit d rest2 hd) hno
          · rw [if_neg hd, ih]
            have hdF : isDigitChar d = false := by
              cases h : isDigitChar d
              · rfl
              · exact absurd h hd
            rw [sds_slash_nondigit d rest2 hdF]
          -- remaining: (acc = none ∧ ¬ SDS (d::rest2)) ↔ (acc = none ∧ ¬ SDS (d::rest2))
      · rw [if_neg hsl, ih, sds_other c rest hnlF hsl]

theorem lastSlashRunGo_digits :
    ∀ (r : List Char) (acc : Option (List Char)),
      (∀ es, acc = some es → es ≠ [] ∧ ∀ c ∈ es, isDigitChar c = true) →
      ∀ ds, lastSlashRunGo r acc = some ds →
        ds ≠ [] ∧ ∀ c ∈ ds, isDigitChar c = true := by
  intro r
  induction r with
  | nil =>
    intro acc hacc ds h
    exact hacc ds h
  | cons c rest ih =>
    intro acc hacc ds h
    unfold lastSlashRunGo at h
    by_cases hnl : isLineTerminator c = true
    · rw [if_pos hnl] at h
      exact hacc ds h
    · rw [if_neg hnl] at h
      by_cases hsl : c = '/'
      · rw [if_pos hsl] at h
        cases rest with
        | nil => exact ih acc hacc ds h
        | cons d rest2 =>
          change lastSlashRunGo (d :: rest2)
            (if isDigitChar d = true then some (digitRun (d :: rest2)) else acc)
              = some ds at h
          by_cases hd : isDigitChar d = true
          · rw [if_pos hd] at h
            refine ih (some (digitRun (d :: rest2))) ?_ ds h
            intro es hes
            obtain rfl := Option.some.inj hes
            exact digitRun_props d rest2 hd
          · rw [if_neg hd] at h
            exact ih acc hacc ds h
      · rw [if_neg hsl] at h
        exact ih acc hacc ds h

theorem lastSlashRun_none_iff (r : List Char) :
    lastSlashRun r = none ↔ ¬ SlashDigitsSeg r := by
  unfold lastSlashRun
  rw [lastSlashRunGo_none_iff]
  simp

theorem lastSlashRun_digits (r ds : List Char) (h : lastSlashRun r = some ds) :
    ds ≠ [] ∧ ∀ c ∈ ds, isDigitChar c = true := by
  refine lastSlashRunGo_digits r none ?_ ds h
  intro es hes
  exact absurd hes (by simp)

theorem dotStarHere_some_imp (s ds : List Char) (h : dotStarHere s = some ds) :
    (∃ rest, s = netflixComLit ++ rest ∧ SlashDigitsSeg rest)
    ∧ ds ≠ [] ∧ ∀ c ∈ ds, isDigitChar c = true := by
  unfold dotStarHere at h
  by_cases hm : litMatch netflixComLit s = true
  · rw [if_pos hm] at h
    obtain ⟨t, rfl⟩ := (litMatch_iff netflixComLit s).mp hm
    rw [List.drop_left] at h
    have hsds : SlashDigitsSeg t := by
      by_contra hno
      rw [← lastSlashRun_none_iff] at hno
      rw [hno] at h
      exact Option.noConfusion h
    exact ⟨⟨t, rfl, hsds⟩, lastSlashRun_digits t ds h⟩
  · rw [if_neg hm] at h
    exact absurd h (by simp)

theorem dotStarHere_none_imp (s : List Char) (h : dotStarHere s = none) :
    ¬ ∃ rest, s = netflixComLit ++ rest ∧ SlashDigitsSeg rest := by
  rintro ⟨rest, rfl, hsds⟩
  unfold dotStarHere at h
  rw [if_pos ((litMatch_iff netflixComLit _).mpr ⟨rest, rfl⟩), List.drop_left] at h
  rw [lastSlashRun_none_iff] at h
  exact h hsds

theorem matchDotStar_some_imp :
    ∀ (s ds : List Char), matchDotStarSlashDigits s = some ds →
      DotStarSlashDigits s ∧ ds ≠ [] ∧ ∀ c ∈ ds, isDigitChar c = true := by
  intro s
  induction s with
  | nil =>
    intro ds h
    exact absurd h (by simp [matchDotStarSlashDigits])
  | cons c rest ih =>
    intro ds h
    unfold matchDotStarSlashDigits at h
    cases hh : dotStarHere (c :: rest) with
    | some ds0 =>
      rw [hh] at h
      change some ds0 = some ds at h
      obtain rfl := Option.some.inj h
      obtain ⟨⟨tail, heq, hsds⟩, hne, hdig⟩ := dotStarHere_some_imp (c :: rest) ds0 hh
      exact ⟨⟨[], tail, by rw [heq]; rfl, hsds⟩, hne, hdig⟩
    | none =>
      rw [hh] at h
      change matchDotStarSlashDigits rest = some ds at h
      obtain ⟨⟨pre, tail, heq, hsds⟩, hne, hdig⟩ := ih ds h
      exact ⟨⟨c :: pre, tail, by rw [heq]; rfl, hsds⟩, hne, hdig⟩

theorem matchDotStar_ne_none :
    ∀ (s : List Char), DotStarSlashDigits s → matchDotStarSlashDigits s ≠ none := by
  intro s
  induction s with
  | nil =>
    rintro ⟨pre, tail, heq, -⟩
    cases pre with
    | nil => exact absurd heq (by simp [netflixComLit])
    | cons p ps => exact absurd heq (by simp)
  | cons c rest ih =>
    rintro ⟨pre, tail, heq, hsds⟩ h
    unfold matchDotStarSlashDigits at h
    cases hh : dotStarHere (c :: rest) with
    | some ds0 =>
      rw [hh] at h
      exact Option.noConfusion h
    | none =>
      rw [hh] at h
      change matchDotStarSlashDigits rest = none at h
      cases pre with
      | nil =>
        simp only [List.nil_append] at heq
        exact (dotStarHere_none_imp (c :: rest) hh) ⟨tail, heq, hsds⟩
      | cons p ps =>
        have hc : c = p ∧ rest = ps ++ netflixComLit ++ tail := by
          simp only [List.cons_append, List.cons.injEq] at heq
          exact heq
        exact ih ⟨ps, tail, hc.2, hsds⟩ h

theorem matchDotStar_none_iff (s : List Char) :
    matchDotStarSlashDigits s = none ↔ ¬ DotStarSlashDigits s := by
  constructor
  · intro h hl
    exact matchDotStar_ne_none s hl h
  · intro h
    cases hm : matchDotStarSlashDigits s with
    | none => rfl
    | some ds => exact absurd (matchDotStar_some_imp s ds hm).1 h

theorem bareDigits_iff (l : List Char) :
    (!l.isEmpty && l.all isDigitChar) = true ↔ BareDigits l := by
  unfold BareDigits
  simp [List.all_eq_true, List.isEmpty_iff]

/-! ## Claim theorems for the identifier resolver -/

/-- C6 (amended): the resolver accepts exactly those strings matched by the
four ordered patterns — `netflix.com/title/` followed by a digit,
`netflix.com/watch/` followed by a digit, `netflix.com/` followed by a later
slash and a digit with no JS line terminator (LF, CR, U+2028, U+2029) in
between, or a bare all-digit string of any positive length (the length is not
restricted to 7–9) — and fails with `none` on every other input; every
accepted result is a nonempty digit token; and the first pattern wins when it
matches. -/
theorem extractNetflixId_amended :
    (∀ url : String,
      extractNetflixId url = none ↔
        ¬ (LitThenDigits titleLit url.data ∨ LitThenDigits watchLit url.data
            ∨ DotStarSlashDigits url.data ∨ BareDigits url.data))
    ∧ (∀ url s, extractNetflixId url = some s →
        s.data ≠ [] ∧ ∀ c ∈ s.data, isDigitChar c = true)
    ∧ (∀ url ds, matchLitDigits titleLit url.data = some ds →
        extractNetflixId url = some (String.mk ds)) := by
  refine ⟨?_, ?_, ?_⟩
  · intro url
    unfold extractNetflixId
    cases h1 : matchLitDigits titleLit url.data with
    | some ds =>
      apply iff_of_false
      · simp
      · intro hno
        exact hno (Or.inl (matchLitDigits_some_imp titleLit url.data ds h1).1)
    | none =>
      cases h2 : matchLitDigits watchLit url.data with
      | some ds =>
        apply iff_of_false
        · simp
        · intro hno
          exact hno (Or.inr (Or.inl (matchLitDigits_some_imp watchLit url.data ds h2).1))
      | none =>
        cases h3 : matchDotStarSlashDigits url.data with
        | some ds =>
          apply iff_of_false
          · simp
          · intro hno
            exact hno (Or.inr (Or.inr (Or.inl (matchDotStar_some_imp url.data ds h3).1)))
        | none =>
          by_cases hb : (!url.data.isEmpty && url.data.all isDigitChar) = true
          · rw [if_pos hb]
            apply iff_of_false
            · simp
            · intro hno
              exact hno (Or.inr (Or.inr (Or.inr ((bareDigits_iff url.data).mp hb))))
          · rw [if_neg hb]
            apply iff_of_true rfl
            rintro (h | h | h | h)
            · exact (matchLitDigits_none_iff titleLit url.data).mp h1 h
            · exact (matchLitDigits_none_iff watchLit url.data).mp h2 h
            · exact (matchDotStar_none_iff url.data).mp h3 h
            · exact hb ((bareDigits_iff url.data).mpr h)
  · intro url s h
    unfold extractNetflixId at h
    cases h1 : matchLitDigits titleLit url.data with
    | some ds =>
      rw [h1] at h
      change some (String.mk ds) = some s at h
      obtain rfl := Option.some.inj h
      obtain ⟨-, hne, hdig⟩ := matchLitDigits_some_imp titleLit url.data ds h1
      exact ⟨hne, hdig⟩
    | none =>
      rw [h1] at h
      cases h2 : matchLitDigits watchLit url.data with
      | some ds =>
        rw [h2] at h
        change some (String.mk ds) = some s at h
        obtain rfl := Option.some.inj h
        obtain ⟨-, hne, hdig⟩ := matchLitDigits_some_imp watchLit url.data ds h2
        exact ⟨hne, hdig⟩
      | none =>
        rw [h2] at h
        cases h3 : matchDotStarSlashDigits url.data with
        | some ds =>
          rw [h3] at h
          change some (String.mk ds) = some s at h
          obtain rfl := Option.some.inj h
          obtain ⟨-, hne, hdig⟩ := matchDotStar_some_imp url.data ds h3
          exact ⟨hne, hdig⟩
        | none =>
          rw [h3] at h
          by_cases hb : (!url.data.isEmpty && url.data.all isDigitChar) = true
          · rw [if_pos hb] at h
            change some url = some s at h
            obtain rfl := Option.some.inj h
            exact (bareDigits_iff url.data).mp hb
          · rw [if_neg hb] at h
            change (none : Option String) = some s at h
            exact absurd h (by simp)
  · intro url ds h
    unfold extractNetflixId
    rw [h]

/-- Witness for C6 (amended): concrete resolver runs — a non-matching string
is rejected, a URL whose only slash-digit capture lies beyond a carriage
return is rejected (JS `.` crosses no line terminator), and a bare digit
token and a full title URL are accepted with digit tokens extracted. -/
theorem extractNetflixId_amended_witness :
    extractNetflixId "hello" = none
    ∧ extractNetflixId "netflix.com/a\r/123" = none
    ∧ (("80057281" : String).data ≠ []
        ∧ ∀ c ∈ ("80057281" : String).data, isDigitChar c = true)
    ∧ extractNetflixId "https://www.netflix.com/title/80057281?s=1"
        = some (String.mk ("80057281" : String).data) := by
  refine ⟨?_, ?_, ?_, ?_⟩
  · apply (extractNetflixId_amended.1 "hello").mpr
    rintro (h | h | h | h)
    · exact (matchLitDigits_none_iff titleLit ("hello" : String).data).mp (by decide) h
    · exact (matchLitDigits_none_iff watchLit ("hello" : String).data).mp (by decide) h
    · exact (matchDotStar_none_iff ("hello" : String).data).mp (by decide) h
    · exact absurd ((bareDigits_iff ("hello" : String).data).mpr h) (by decide)
  · apply (extractNetflixId_amended.1 "netflix.com/a\r/123").mpr
    rintro (h | h | h | h)
    · exact (matchLitDigits_none_iff titleLit ("netflix.com/a\r/123" : String).data).mp
        (by decide) h
    · exact (matchLitDigits_none_iff watchLit ("netflix.com/a\r/123" : String).data).mp
        (by decide) h
    · exact (matchDotStar_none_iff ("netflix.com/a\r/123" : String).data).mp (by decide) h
    · exact absurd ((bareDigits_iff ("netflix.com/a\r/123" : String).data).mpr h) (by decide)
  · exact extractNetflixId_amended.2.1 "80057281" "80057281" (by decide)
  · exact extractNetflixId_amended.2.2 "https://www.netflix.com/title/80057281?s=1"
      ("80057281" : String).data (by decide)

/-- C6 counterexample: the three-digit string "123" matches none of the URL
patterns and is not a 7–9 digit token, yet the resolver accepts it — the code
pattern `^(\d+)$` puts no length restriction on bare numeric tokens. -/
theorem extractNetflixId_counterexample :
    extractNetflixId "123" = some "123"
    ∧ ("123" : String).length = 3
    ∧ matchLitDigits titleLit ("123" : String).data = none
    ∧ matchLitDigits watchLit ("123" : String).data = none
    ∧ matchDotStarSlashDigits ("123" : String).data = none := by
  refine ⟨?_, ?_, ?_, ?_, ?_⟩ <;> decide
